import Mathlib

/-!
Verification of the Abricot project/task management backend
(multi-tenant projects, role-based permissions, tasks, assignees, comments).

The TypeScript controllers (`projectController`/`taskController`,
`commentController`, `utils/validation.ts`, `utils/taskComments.ts`) are
embedded shallowly: the Prisma database becomes an explicit `DB` record of
row lists, each HTTP handler becomes a pure function `DB → … → Res × DB`,
and Prisma query combinators (`findUnique`, `findFirst`, `findMany`,
`deleteMany`, `create`, `update`) become the corresponding list operations.
`console.log` calls and response payload shaping that does not affect the
persisted state are dropped.  The helper modules `utils/permissions.ts`
and `utils/taskAssignments.ts` are not part of the available source tree;
their definitions are modelled from the specification (see the doc
comments marked "Modelled from the spec").
-/

namespace Abricot

/-- User, project, task and comment identifiers are strings (Prisma cuids). -/
abbrev UserId := String

abbrev ProjectId := String

abbrev TaskId := String

abbrev CommentId := String

/-- Membership roles stored in a `ProjectMember` row
(`role: 'ADMIN' | 'CONTRIBUTOR'`).  The owner is not stored as a row. -/
inductive Role where
  | ADMIN
  | CONTRIBUTOR
deriving DecidableEq, Repr

/-- A `User` row (fields relevant to the verified behaviour). -/
structure User where
  id : UserId
  email : String
deriving DecidableEq, Repr

/-- A `Project` row: `ownerId` is the owning user; owners never appear in
the membership relation. -/
structure Project where
  id : ProjectId
  ownerId : UserId
  name : String
  description : Option String
deriving DecidableEq, Repr

/-- A `ProjectMember` row: ternary relation (userId, projectId) → role. -/
structure Member where
  userId : UserId
  projectId : ProjectId
  role : Role
deriving DecidableEq, Repr

/-- A `Task` row.  `status`/`priority` are the literal strings the API
uses; `dueDate` and `createdAt` are modelled as already-parsed
timestamps (`Nat`) rather than ISO strings. -/
structure Task where
  id : TaskId
  projectId : ProjectId
  title : String
  description : Option String
  status : String
  priority : String
  dueDate : Option Nat
  creatorId : UserId
  createdAt : Nat
deriving DecidableEq, Repr

/-- A `TaskAssignee` row: relates a task to an assigned user. -/
structure Assignment where
  taskId : TaskId
  userId : UserId
deriving DecidableEq, Repr

/-- A `Comment` row. -/
structure Comment where
  id : CommentId
  taskId : TaskId
  authorId : UserId
  content : String
  createdAt : Nat
deriving DecidableEq, Repr

/-- The whole persisted state: one list of rows per table. -/
structure DB where
  users : List User
  projects : List Project
  members : List Member
  tasks : List Task
  assignments : List Assignment
  comments : List Comment
deriving DecidableEq, Repr

/-- Field/message pair returned by the validators
(`ValidationError` in `src/types`). -/
structure ValidationError where
  field : String
  message : String
deriving DecidableEq, Repr

/-- Outcome of a handler: success, a 400 validation-error list, or an
error with the controller's error code string and HTTP status. -/
inductive Res where
  | ok
  | validation (errs : List ValidationError)
  | err (code : String) (status : Nat)
deriving DecidableEq, Repr

/-- `prisma.project.findUnique({ where: { id } })`. -/
def findProject (db : DB) (projectId : ProjectId) : Option Project :=
  db.projects.find? (fun p => p.id == projectId)

/-- `prisma.projectMember.findUnique({ where: { userId_projectId } })`. -/
def findMembership (db : DB) (userId : UserId) (projectId : ProjectId) :
    Option Member :=
  db.members.find? (fun m => m.userId == userId && m.projectId == projectId)

/-- Modelled from the spec: `src/utils/permissions.ts` is not in the
available source tree.  §4.1: true when `userId == project.ownerId`;
must return false (not throw) on a non-existent project. -/
def isProjectOwner (db : DB) (userId : UserId) (projectId : ProjectId) : Bool :=
  match findProject db projectId with
  | some p => p.ownerId == userId
  | none => false

/-- Modelled from the spec: `src/utils/permissions.ts` is not in the
available source tree.  §4.1: true when the membership role is ADMIN;
the owner does not automatically satisfy this predicate. -/
def isProjectAdmin (db : DB) (userId : UserId) (projectId : ProjectId) : Bool :=
  match findMembership db userId projectId with
  | some m => m.role == Role.ADMIN
  | none => false

/-- Modelled from the spec: `src/utils/permissions.ts` is not in the
available source tree.  §4.1: owner OR any membership row. -/
def hasProjectAccess (db : DB) (userId : UserId) (projectId : ProjectId) : Bool :=
  isProjectOwner db userId projectId || (findMembership db userId projectId).isSome

/-- Modelled from the spec: §4.1, `isProjectOwner OR isProjectAdmin`. -/
def canModifyProject (db : DB) (userId : UserId) (projectId : ProjectId) : Bool :=
  isProjectOwner db userId projectId || isProjectAdmin db userId projectId

/-- Modelled from the spec: §4.1, `isProjectOwner` only. -/
def canDeleteProject (db : DB) (userId : UserId) (projectId : ProjectId) : Bool :=
  isProjectOwner db userId projectId

/-- Modelled from the spec: §4.1, `hasProjectAccess`. -/
def canCreateTasks (db : DB) (userId : UserId) (projectId : ProjectId) : Bool :=
  hasProjectAccess db userId projectId

/-- Modelled from the spec: §4.1, `hasProjectAccess` (any member may
modify any task). -/
def canModifyTasks (db : DB) (userId : UserId) (projectId : ProjectId) : Bool :=
  hasProjectAccess db userId projectId

/-- Resolved role including the implicit owner tier. -/
inductive UserRole where
  | OWNER
  | ADMIN
  | CONTRIBUTOR
deriving DecidableEq, Repr

/-- Modelled from the spec: §4.1, returns OWNER / ADMIN / CONTRIBUTOR /
null with owner precedence over any membership row. -/
def getUserProjectRole (db : DB) (userId : UserId) (projectId : ProjectId) :
    Option UserRole :=
  if isProjectOwner db userId projectId then some UserRole.OWNER
  else
    match findMembership db userId projectId with
    | some m =>
        match m.role with
        | Role.ADMIN => some UserRole.ADMIN
        | Role.CONTRIBUTOR => some UserRole.CONTRIBUTOR
    | none => none

/-- `removeContributor` (projectController): permission check, then the
owner-self-removal guard (`isOwner && authReq.user.id === userId`), then
`projectMember.deleteMany({ where: { userId, projectId } })`. -/
def removeContributor (db : DB) (caller : UserId) (projectId : ProjectId)
    (targetId : UserId) : Res × DB :=
  if !canModifyProject db caller projectId then
    (Res.err "FORBIDDEN" 403, db)
  else if isProjectOwner db caller projectId && caller == targetId then
    (Res.err "CANNOT_REMOVE_OWNER" 400, db)
  else
    (Res.ok,
      { db with
        members :=
          db.members.filter
            (fun m => !(m.userId == targetId && m.projectId == projectId)) })

/-- JavaScript `String.prototype.toLowerCase()` on the ASCII strings
handled here: lower-case each character. -/
def jsToLower (s : String) : String :=
  String.mk (s.toList.map Char.toLower)

/-- `prisma.user.findUnique({ where: { email: email.toLowerCase() } })`. -/
def findUserByEmail (db : DB) (email : String) : Option User :=
  db.users.find? (fun u => u.email == jsToLower email)

/-- `addContributor` (projectController): permission check, user lookup by
lowercased email, already-member conflict check, then insertion. -/
def addContributor (db : DB) (caller : UserId) (projectId : ProjectId)
    (email : String) (role : Role) : Res × DB :=
  if !canModifyProject db caller projectId then
    (Res.err "FORBIDDEN" 403, db)
  else
    match findUserByEmail db email with
    | none => (Res.err "USER_NOT_FOUND" 404, db)
    | some user =>
        if (findMembership db user.id projectId).isSome then
          (Res.err "USER_ALREADY_MEMBER" 409, db)
        else
          (Res.ok,
            { db with
              members := db.members ++ [⟨user.id, projectId, role⟩] })

/-- JavaScript `String.prototype.trim()`: strip leading and trailing
whitespace. -/
def jsTrim (s : String) : String :=
  String.mk (((s.toList.dropWhile Char.isWhitespace).reverse.dropWhile
    Char.isWhitespace).reverse)

/-- JavaScript `String.prototype.length` (code units; the strings handled
here are plain characters). -/
def jsLen (s : String) : Nat :=
  s.toList.length

/-- A character admitted by the `[^\s@]` class of the email regex. -/
def emailChar (c : Char) : Bool :=
  !c.isWhitespace && c != '@'

/-- The domain part of the email regex, `[^\s@]+\.[^\s@]+`: some dot has a
non-empty run of admissible characters on each side. -/
def emailDomainOk (dom : List Char) : Bool :=
  dom.all emailChar &&
    dom.enum.any (fun ic => ic.2 == '.' && 0 < ic.1 && ic.1 + 1 < dom.length)

/-- `isValidEmail` (validation.ts): the anchored regex
`^[^\s@]+@[^\s@]+\.[^\s@]+$`.  The split is taken at the first `@`;
admissible characters exclude `@`, so any later `@` fails the domain
check, matching the regex semantics. -/
def isValidEmail (s : String) : Bool :=
  let cs := s.toList
  let lp := cs.takeWhile (fun c => c != '@')
  match cs.dropWhile (fun c => c != '@') with
  | '@' :: dom => !lp.isEmpty && lp.all emailChar && !dom.isEmpty && emailDomainOk dom
  | _ => false

/-- A character admitted by the password regex class `[a-zA-Z\d@$!%*?&]`. -/
def passwordChar (c : Char) : Bool :=
  c.isAlpha || c.isDigit || c == '@' || c == '$' || c == '!' || c == '%' ||
    c == '*' || c == '?' || c == '&'

/-- `isValidPassword` (validation.ts): the regex
`^(?=.*[a-z])(?=.*[A-Z])(?=.*\d)[a-zA-Z\d@$!%*?&]{8,}$` — at least 8
admissible characters including a lowercase letter, an uppercase letter
and a digit. -/
def isValidPassword (s : String) : Bool :=
  let cs := s.toList
  decide (8 ≤ cs.length) && cs.all passwordChar && cs.any Char.isLower &&
    cs.any Char.isUpper && cs.any Char.isDigit

/-- `validateRegisterData` (validation.ts).  The sequential `errors.push`
blocks become list concatenation; message texts are condensed.  A `name`
of `none` models JavaScript `undefined`; `data.name && …` is the
truthiness test `name ≠ ""`. -/
def validateRegisterData (email password : String) (name : Option String) :
    List ValidationError :=
  (if email == "" then [⟨"email", "required"⟩]
   else if !isValidEmail email then [⟨"email", "invalid format"⟩]
   else [])
  ++ (if password == "" then [⟨"password", "required"⟩]
      else if !isValidPassword password then [⟨"password", "too weak"⟩]
      else [])
  ++ (match name with
      | some n =>
          if n != "" && jsLen (jsTrim n) < 2 then [⟨"name", "too short"⟩]
          else []
      | none => [])

/-- Contributor-email block shared by the project validators: one error
per invalid email, indexed by position. -/
def contributorEmailErrors (contributors : List String) : List ValidationError :=
  contributors.enum.filterMap
    (fun ie =>
      if !isValidEmail ie.2 then
        some ⟨"contributors[" ++ toString ie.1 ++ "]", "invalid format"⟩
      else none)

/-- `validateCreateProjectData` (validation.ts). -/
def validateCreateProjectData (name : String) (description : Option String)
    (contributors : Option (List String)) : List ValidationError :=
  (if name == "" then [⟨"name", "required"⟩]
   else if jsLen (jsTrim name) < 2 then [⟨"name", "too short"⟩]
   else if jsLen (jsTrim name) > 100 then [⟨"name", "too long"⟩]
   else [])
  ++ (match description with
      | some d =>
          if d != "" && jsLen (jsTrim d) > 500 then [⟨"description", "too long"⟩]
          else []
      | none => [])
  ++ (match contributors with
      | some cs => contributorEmailErrors cs
      | none => [])

/-- `validateUpdateProjectData` (validation.ts). -/
def validateUpdateProjectData (name : Option String)
    (description : Option String) (contributors : Option (List String)) :
    List ValidationError :=
  (match name with
   | some n =>
       if jsTrim n == "" then [⟨"name", "empty"⟩]
       else if jsLen (jsTrim n) < 2 then [⟨"name", "too short"⟩]
       else if jsLen (jsTrim n) > 100 then [⟨"name", "too long"⟩]
       else []
   | none => [])
  ++ (match description with
      | some d =>
          if jsLen (jsTrim d) > 500 then [⟨"description", "too long"⟩]
          else []
      | none => [])
  ++ (match contributors with
      | some cs => contributorEmailErrors cs
      | none => [])

/-- Assignee-id block shared by the task validators: each id must be a
non-empty string. -/
def assigneeIdErrors (assigneeIds : List UserId) : List ValidationError :=
  assigneeIds.enum.filterMap
    (fun iu =>
      if iu.2 == "" then
        some ⟨"assigneeIds[" ++ toString iu.1 ++ "]", "invalid id"⟩
      else none)

/-- Input of `createTask` (`CreateTaskRequest`).  `dueDate` is modelled as
a parsed timestamp, so the ISO-format check of `isValidDate` has no
failing case in the model. -/
structure CreateTaskInput where
  title : String
  description : Option String
  priority : Option String
  dueDate : Option Nat
  assigneeIds : Option (List UserId)
deriving DecidableEq, Repr

/-- `validateCreateTaskData` (validation.ts). -/
def validateCreateTaskData (d : CreateTaskInput) : List ValidationError :=
  (if d.title == "" then [⟨"title", "required"⟩]
   else if jsLen (jsTrim d.title) < 2 then [⟨"title", "too short"⟩]
   else if jsLen (jsTrim d.title) > 200 then [⟨"title", "too long"⟩]
   else [])
  ++ (match d.description with
      | some s =>
          if s != "" && jsLen (jsTrim s) > 1000 then [⟨"description", "too long"⟩]
          else []
      | none => [])
  ++ (match d.priority with
      | some p =>
          if p != "" && !(["LOW", "MEDIUM", "HIGH", "URGENT"].contains p) then
            [⟨"priority", "invalid"⟩]
          else []
      | none => [])
  ++ (match d.assigneeIds with
      | some ids => assigneeIdErrors ids
      | none => [])

/-- Input of `updateTask` (`UpdateTaskRequest`): every field optional. -/
structure UpdateTaskInput where
  title : Option String
  description : Option String
  status : Option String
  priority : Option String
  dueDate : Option Nat
  assigneeIds : Option (List UserId)
deriving DecidableEq, Repr

/-- `validateUpdateTaskData` (validation.ts). -/
def validateUpdateTaskData (d : UpdateTaskInput) : List ValidationError :=
  (match d.title with
   | some t =>
       if jsTrim t == "" then [⟨"title", "empty"⟩]
       else if jsLen (jsTrim t) < 2 then [⟨"title", "too short"⟩]
       else if jsLen (jsTrim t) > 200 then [⟨"title", "too long"⟩]
       else []
   | none => [])
  ++ (match d.description with
      | some s =>
          if jsLen (jsTrim s) > 1000 then [⟨"description", "too long"⟩]
          else []
      | none => [])
  ++ (match d.status with
      | some st =>
          if st != "" && !(["TODO", "IN_PROGRESS", "DONE", "CANCELLED"].contains st)
          then [⟨"status", "invalid"⟩]
          else []
      | none => [])
  ++ (match d.priority with
      | some p =>
          if p != "" && !(["LOW", "MEDIUM", "HIGH", "URGENT"].contains p) then
            [⟨"priority", "invalid"⟩]
          else []
      | none => [])
  ++ (match d.assigneeIds with
      | some ids => assigneeIdErrors ids
      | none => [])

/-- `validateCreateCommentData` / `validateUpdateCommentData`
(validation.ts): both bodies are identical. -/
def validateCommentData (content : String) : List ValidationError :=
  if content == "" then [⟨"content", "required"⟩]
  else if jsLen (jsTrim content) < 1 then [⟨"content", "empty"⟩]
  else if jsLen (jsTrim content) > 2000 then [⟨"content", "too long"⟩]
  else []

/-- Modelled from the spec: `src/utils/taskAssignments.ts` is not in the
available source tree.  §4.1: every id in a proposed assignee list must
correspond to an existing membership (or the owner) in that exact
project. -/
def validateProjectMembers (db : DB) (projectId : ProjectId)
    (userIds : List UserId) : Bool :=
  userIds.all
    (fun u => isProjectOwner db u projectId ||
      (findMembership db u projectId).isSome)

/-- Modelled from the spec: `src/utils/taskAssignments.ts` is not in the
available source tree.  §4.2: the declared set replaces the prior set —
delete rows no longer declared, insert rows newly declared, leave
unchanged rows untouched, all inside one transaction (atomic by
construction in this pure embedding). -/
def updateTaskAssignments (db : DB) (taskId : TaskId)
    (assigneeIds : List UserId) : DB :=
  let kept := db.assignments.filter
    (fun a => !(a.taskId == taskId) || assigneeIds.contains a.userId)
  let inserted := (assigneeIds.filter
    (fun u => !db.assignments.any (fun a => a.taskId == taskId && a.userId == u))).map
    (fun u => Assignment.mk taskId u)
  { db with assignments := kept ++ inserted }

/-- `prisma.task.findFirst({ where: { id: taskId, projectId } })` as a
Bool (only existence is used by the handlers). -/
def taskExistsIn (db : DB) (taskId : TaskId) (projectId : ProjectId) : Bool :=
  db.tasks.any (fun t => t.id == taskId && t.projectId == projectId)

/-- `createTask` (taskController): guard chain — project-id check,
validation, `hasProjectAccess`, project existence, `canCreateTasks`,
assignee-membership validation — then task creation and, when assignees
were supplied, reconciliation.  `freshTaskId` stands for the id Prisma
generates for the new row. -/
def createTask (db : DB) (caller : UserId) (projectId : ProjectId)
    (freshTaskId : TaskId) (now : Nat) (input : CreateTaskInput) : Res × DB :=
  if projectId == "" then (Res.err "INVALID_PROJECT_ID" 400, db)
  else if !(validateCreateTaskData input).isEmpty then
    (Res.validation (validateCreateTaskData input), db)
  else if !hasProjectAccess db caller projectId then
    (Res.err "FORBIDDEN" 403, db)
  else if (findProject db projectId).isNone then
    (Res.err "PROJECT_NOT_FOUND" 404, db)
  else if !canCreateTasks db caller projectId then
    (Res.err "FORBIDDEN" 403, db)
  else
    let ids := input.assigneeIds.getD []
    if !ids.isEmpty && !validateProjectMembers db projectId ids then
      (Res.err "INVALID_ASSIGNEES" 400, db)
    else
      let newTask : Task :=
        { id := freshTaskId
          projectId := projectId
          title := jsTrim input.title
          description :=
            match input.description with
            | some s => if jsTrim s == "" then none else some (jsTrim s)
            | none => none
          status := "TODO"
          priority :=
            match input.priority with
            | some p => if p == "" then "MEDIUM" else p
            | none => "MEDIUM"
          dueDate := input.dueDate
          creatorId := caller
          createdAt := now }
      let db1 := { db with tasks := db.tasks ++ [newTask] }
      if !ids.isEmpty then (Res.ok, updateTaskAssignments db1 freshTaskId ids)
      else (Res.ok, db1)

/-- Field part of `updateTask`: `prisma.task.update` with only the
defined fields of the request applied. -/
def applyTaskUpdate (t : Task) (input : UpdateTaskInput) : Task :=
  { t with
    title := match input.title with | some s => jsTrim s | none => t.title
    description :=
      match input.description with
      | some s => if jsTrim s == "" then none else some (jsTrim s)
      | none => t.description
    status := match input.status with | some s => s | none => t.status
    priority := match input.priority with | some p => p | none => t.priority
    dueDate := match input.dueDate with | some d => some d | none => t.dueDate }

/-- `updateTask` (taskController): validation, `hasProjectAccess`,
`canModifyTasks`, task existence, assignee-membership validation, then
the field update and — whenever `assigneeIds` was supplied, even empty —
assignment reconciliation. -/
def updateTask (db : DB) (caller : UserId) (projectId : ProjectId)
    (taskId : TaskId) (input : UpdateTaskInput) : Res × DB :=
  if !(validateUpdateTaskData input).isEmpty then
    (Res.validation (validateUpdateTaskData input), db)
  else if !hasProjectAccess db caller projectId then
    (Res.err "FORBIDDEN" 403, db)
  else if !canModifyTasks db caller projectId then
    (Res.err "FORBIDDEN" 403, db)
  else if !taskExistsIn db taskId projectId then
    (Res.err "TASK_NOT_FOUND" 404, db)
  else
    let ids := input.assigneeIds.getD []
    if !ids.isEmpty && !validateProjectMembers db projectId ids then
      (Res.err "INVALID_ASSIGNEES" 400, db)
    else
      let db1 :=
        { db with
          tasks := db.tasks.map
            (fun t => if t.id == taskId then applyTaskUpdate t input else t) }
      match input.assigneeIds with
      | some declared => (Res.ok, updateTaskAssignments db1 taskId declared)
      | none => (Res.ok, db1)

/-- `updateProject` (projectController): validation, `canModifyProject`,
then `prisma.project.update` (which raises — mapped to a 500 — when the
row is missing). -/
def updateProject (db : DB) (caller : UserId) (projectId : ProjectId)
    (name : Option String) (description : Option String) : Res × DB :=
  if !(validateUpdateProjectData name description none).isEmpty then
    (Res.validation (validateUpdateProjectData name description none), db)
  else if !canModifyProject db caller projectId then
    (Res.err "FORBIDDEN" 403, db)
  else if (findProject db projectId).isNone then
    (Res.err "SERVER_ERROR" 500, db)
  else
    (Res.ok,
      { db with
        projects := db.projects.map
          (fun p =>
            if p.id == projectId then
              { p with
                name := match name with | some n => jsTrim n | none => p.name
                description :=
                  match description with
                  | some d => if jsTrim d == "" then none else some (jsTrim d)
                  | none => p.description }
            else p) })

/-- The per-user insertion loop of `createProject`: one
`projectMember.create` per matched user, with duplicate-key errors
swallowed (`catch` → the row is simply not inserted again). -/
def addInitialContributors (users : List User) (projectId : ProjectId)
    (db : DB) : DB :=
  users.foldl
    (fun acc u =>
      if (findMembership acc u.id projectId).isSome then acc
      else { acc with members := acc.members ++ [⟨u.id, projectId, Role.CONTRIBUTOR⟩] })
    db

/-- `createProject` (projectController): validation, project insertion,
then — when a contributor email list was supplied — a `findMany` over the
lowercased emails and the tolerant insertion loop.  `freshProjectId`
stands for the id Prisma generates. -/
def createProject (db : DB) (caller : UserId) (freshProjectId : ProjectId)
    (name : String) (description : Option String)
    (contributors : Option (List String)) : Res × DB :=
  if !(validateCreateProjectData name description contributors).isEmpty then
    (Res.validation (validateCreateProjectData name description contributors), db)
  else
    let newProject : Project :=
      { id := freshProjectId
        ownerId := caller
        name := jsTrim name
        description :=
          match description with
          | some d => if jsTrim d == "" then none else some (jsTrim d)
          | none => none }
    let db1 := { db with projects := db.projects ++ [newProject] }
    match contributors with
    | some cs =>
        if !cs.isEmpty then
          let matched := db1.users.filter
            (fun u => (cs.map jsToLower).contains u.email)
          (Res.ok, addInitialContributors matched freshProjectId db1)
        else (Res.ok, db1)
    | none => (Res.ok, db1)

/-- `orderBy { createdAt: "asc" }` on comments. -/
def commentLe (a b : Comment) : Prop :=
  a.createdAt ≤ b.createdAt

/-- `orderBy { createdAt: "desc" }` on comments. -/
def commentGe (a b : Comment) : Prop :=
  b.createdAt ≤ a.createdAt

/-- `orderBy { createdAt: "desc" }` on tasks. -/
def taskGe (a b : Task) : Prop :=
  b.createdAt ≤ a.createdAt

instance : DecidableRel commentLe :=
  fun a b => Nat.decLe a.createdAt b.createdAt

instance : DecidableRel commentGe :=
  fun a b => Nat.decLe b.createdAt a.createdAt

instance : DecidableRel taskGe :=
  fun a b => Nat.decLe b.createdAt a.createdAt

instance : IsTotal Comment commentLe :=
  ⟨fun a b => Nat.le_total a.createdAt b.createdAt⟩

instance : IsTrans Comment commentLe :=
  ⟨fun _ _ _ hab hbc => Nat.le_trans hab hbc⟩

instance : IsTotal Comment commentGe :=
  ⟨fun a b => (Nat.le_total b.createdAt a.createdAt).imp id id⟩

instance : IsTrans Comment commentGe :=
  ⟨fun _ _ _ hab hbc => Nat.le_trans hbc hab⟩

instance : IsTotal Task taskGe :=
  ⟨fun a b => (Nat.le_total b.createdAt a.createdAt).imp id id⟩

instance : IsTrans Task taskGe :=
  ⟨fun _ _ _ hab hbc => Nat.le_trans hbc hab⟩

/-- The comment rows of one task. -/
def taskCommentRows (db : DB) (taskId : TaskId) : List Comment :=
  db.comments.filter (fun c => c.taskId == taskId)

/-- `getTaskComments` (utils/taskComments.ts):
`comment.findMany({ where: { taskId }, orderBy: { createdAt: "asc" } })`. -/
def getTaskComments (db : DB) (taskId : TaskId) : List Comment :=
  List.insertionSort commentLe (taskCommentRows db taskId)

/-- `getComments` (commentController): access check, task-in-project
check, then the comment list ordered by `createdAt: "asc"`. -/
def getComments (db : DB) (caller : UserId) (projectId : ProjectId)
    (taskId : TaskId) : Res × List Comment :=
  if !hasProjectAccess db caller projectId then
    (Res.err "FORBIDDEN" 403, [])
  else if !taskExistsIn db taskId projectId then
    (Res.err "TASK_NOT_FOUND" 404, [])
  else
    (Res.ok, List.insertionSort commentLe (taskCommentRows db taskId))

/-- `getTask` (taskController): access check, task lookup, then the
payload's comment list, obtained through `getTaskComments` (ascending). -/
def getTask (db : DB) (caller : UserId) (projectId : ProjectId)
    (taskId : TaskId) : Res × List Comment :=
  if !hasProjectAccess db caller projectId then
    (Res.err "FORBIDDEN" 403, [])
  else if !taskExistsIn db taskId projectId then
    (Res.err "TASK_NOT_FOUND" 404, [])
  else
    (Res.ok, getTaskComments db taskId)

/-- `getProject` (projectController): the embedded `tasks` are ordered by
`createdAt: "desc"` and each task's embedded `comments` are ordered by
`createdAt: "desc"` as well.  Only the parts of the payload the ordering
claim is about are kept: each task with its comment list. -/
def getProject (db : DB) (caller : UserId) (projectId : ProjectId) :
    Res × List (Task × List Comment) :=
  if !hasProjectAccess db caller projectId then
    (Res.err "FORBIDDEN" 403, [])
  else
    match findProject db projectId with
    | none => (Res.err "PROJECT_NOT_FOUND" 404, [])
    | some _ =>
        (Res.ok,
          (List.insertionSort taskGe
            (db.tasks.filter (fun t => t.projectId == projectId))).map
            (fun t =>
              (t, List.insertionSort commentGe (taskCommentRows db t.id))))

/-- `comment.findFirst({ where: { id, taskId, task: { projectId } } })`. -/
def findCommentIn (db : DB) (commentId : CommentId) (taskId : TaskId)
    (projectId : ProjectId) : Option Comment :=
  db.comments.find?
    (fun c => c.id == commentId && c.taskId == taskId &&
      db.tasks.any (fun t => t.id == c.taskId && t.projectId == projectId))

/-- `updateComment` (commentController): validation, `hasProjectAccess`,
comment lookup, the author-only check, then the content update. -/
def updateComment (db : DB) (caller : UserId) (projectId : ProjectId)
    (taskId : TaskId) (commentId : CommentId) (content : String) : Res × DB :=
  if !(validateCommentData content).isEmpty then
    (Res.validation (validateCommentData content), db)
  else if !hasProjectAccess db caller projectId then
    (Res.err "FORBIDDEN" 403, db)
  else
    match findCommentIn db commentId taskId projectId with
    | none => (Res.err "COMMENT_NOT_FOUND" 404, db)
    | some c =>
        if c.authorId != caller then (Res.err "FORBIDDEN" 403, db)
        else
          (Res.ok,
            { db with
              comments := db.comments.map
                (fun cc =>
                  if cc.id == commentId then { cc with content := jsTrim content }
                  else cc) })

/-- `deleteComment` (commentController): `hasProjectAccess`, comment
lookup, then author-or-`canModifyTasks`, then deletion. -/
def deleteComment (db : DB) (caller : UserId) (projectId : ProjectId)
    (taskId : TaskId) (commentId : CommentId) : Res × DB :=
  if !hasProjectAccess db caller projectId then
    (Res.err "FORBIDDEN" 403, db)
  else
    match findCommentIn db commentId taskId projectId with
    | none => (Res.err "COMMENT_NOT_FOUND" 404, db)
    | some c =>
        if c.authorId != caller && !canModifyTasks db caller projectId then
          (Res.err "FORBIDDEN" 403, db)
        else
          (Res.ok,
            { db with
              comments := db.comments.filter (fun cc => !(cc.id == commentId)) })

/-- Well-formedness of the persisted state, as guaranteed by the Prisma
schema and the spec's data model (§3): memberships are unique per
(user, project), the owner is never stored as a membership row, project
ids are unique, and membership rows reference existing projects
(foreign-key integrity). -/
structure WF (db : DB) : Prop where
  membersUnique : ∀ m1 ∈ db.members, ∀ m2 ∈ db.members,
    m1.userId = m2.userId → m1.projectId = m2.projectId → m1 = m2
  ownerNotMember : ∀ m ∈ db.members, ∀ pr ∈ db.projects,
    pr.id = m.projectId → pr.ownerId ≠ m.userId
  projectsUnique : ∀ p1 ∈ db.projects, ∀ p2 ∈ db.projects,
    p1.id = p2.id → p1 = p2
  memberProjectExists : ∀ m ∈ db.members, ∃ pr ∈ db.projects,
    pr.id = m.projectId

theorem findProject_eq_some {db : DB} {p : ProjectId} {pr : Project}
    (h : findProject db p = some pr) : pr ∈ db.projects ∧ pr.id = p := by
  refine ⟨List.mem_of_find?_eq_some h, ?_⟩
  have := List.find?_some h
  simpa using this

theorem findProject_of_mem {db : DB} {p : ProjectId} {pr : Project}
    (hU : ∀ p1 ∈ db.projects, ∀ p2 ∈ db.projects, p1.id = p2.id → p1 = p2)
    (hpr : pr ∈ db.projects) (hid : pr.id = p) :
    findProject db p = some pr := by
  cases hfind : findProject db p with
  | none =>
      rw [findProject, List.find?_eq_none] at hfind
      exact absurd (by simpa using hid) (hfind pr hpr)
  | some q =>
      obtain ⟨hqmem, hqid⟩ := findProject_eq_some hfind
      rw [hU q hqmem pr hpr (hqid.trans hid.symm)]

theorem findMembership_eq_some {db : DB} {u : UserId} {p : ProjectId}
    {m : Member} (h : findMembership db u p = some m) :
    m ∈ db.members ∧ m.userId = u ∧ m.projectId = p := by
  refine ⟨List.mem_of_find?_eq_some h, ?_⟩
  have := List.find?_some h
  simpa [Bool.and_eq_true] using this

theorem findMembership_of_mem {db : DB} {u : UserId} {p : ProjectId} {r : Role}
    (hU : ∀ m1 ∈ db.members, ∀ m2 ∈ db.members,
      m1.userId = m2.userId → m1.projectId = m2.projectId → m1 = m2)
    (hm : Member.mk u p r ∈ db.members) :
    findMembership db u p = some (Member.mk u p r) := by
  cases hfind : findMembership db u p with
  | none =>
      rw [findMembership, List.find?_eq_none] at hfind
      exact absurd (by simp) (hfind _ hm)
  | some q =>
      obtain ⟨hqmem, hqu, hqp⟩ := findMembership_eq_some hfind
      rw [hU q hqmem _ hm (by simpa using hqu) (by simpa using hqp)]

theorem findMembership_eq_none {db : DB} {u : UserId} {p : ProjectId}
    (h : ∀ m ∈ db.members, ¬(m.userId = u ∧ m.projectId = p)) :
    findMembership db u p = none := by
  rw [findMembership, List.find?_eq_none]
  intro m hm
  simpa [Bool.and_eq_true] using h m hm

/-- Scenario for claim C1: project `p1` owned by `u1`, with `u2` an ADMIN
member and `u3` a CONTRIBUTOR member. -/
def dbC1 : DB :=
  { users := []
    projects := [⟨"p1", "u1", "Alpha", none⟩]
    members := [⟨"u2", "p1", Role.ADMIN⟩, ⟨"u3", "p1", Role.CONTRIBUTOR⟩]
    tasks := []
    assignments := []
    comments := [] }

/-- C1 (counterexample): an ADMIN caller (`u2`) removing the project
owner (`u1`) is NOT rejected with CANNOT_REMOVE_OWNER — the call
succeeds as a no-op, refuting the claim that targeting the owner always
fails regardless of the caller's role. -/
theorem removeContributor_target_owner_counterexample :
    canModifyProject dbC1 "u2" "p1" = true ∧
    isProjectOwner dbC1 "u1" "p1" = true ∧
    removeContributor dbC1 "u2" "p1" "u1" = (Res.ok, dbC1) := by
  decide

/-- C1 (amended): `removeContributor` fails with CANNOT_REMOVE_OWNER
exactly when the caller passes the `canModifyProject` check, is
themself the project owner, and targets their own id; any other
authorized call — including an admin targeting the owner — proceeds
(the owner holds no membership row, so nothing is deleted). -/
theorem removeContributor_owner_guard (db : DB) (caller : UserId)
    (projectId : ProjectId) (targetId : UserId) :
    (removeContributor db caller projectId targetId).1 =
      Res.err "CANNOT_REMOVE_OWNER" 400 ↔
    canModifyProject db caller projectId = true ∧
      isProjectOwner db caller projectId = true ∧ caller = targetId := by
  unfold removeContributor
  split_ifs with h1 h2
  · simp only [Bool.not_eq_true'] at h1
    simp [h1]
  · simp only [Bool.and_eq_true, beq_iff_eq] at h2
    obtain ⟨ho, hct⟩ := h2
    simp only [Bool.not_eq_true', Bool.not_eq_false] at h1
    subst hct
    simp [h1, ho]
  · simp only [Bool.and_eq_true, beq_iff_eq, not_and] at h2
    simp only [Bool.not_eq_true', Bool.not_eq_false] at h1
    constructor
    · intro h
      exact absurd h (by simp)
    · rintro ⟨-, ho, hct⟩
      exact absurd hct (h2 ho)

/-- C2: a task create or update whose proposed assignee list is non-empty
and contains one id that is neither the owner nor a member of the
project is rejected whole with INVALID_ASSIGNEES (HTTP 400) and the
database — in particular the prior assignment set — is unchanged. -/
theorem task_invalid_assignees_rejected (db : DB) (caller : UserId)
    (projectId : ProjectId) (freshTaskId taskId : TaskId) (now : Nat)
    (cinput : CreateTaskInput) (uinput : UpdateTaskInput)
    (ids : List UserId) (bad : UserId)
    (hbad : bad ∈ ids)
    (hnotOwner : isProjectOwner db bad projectId = false)
    (hnotMember : findMembership db bad projectId = none)
    (hpid : (projectId == "") = false)
    (hcval : validateCreateTaskData cinput = [])
    (huval : validateUpdateTaskData uinput = [])
    (haccess : hasProjectAccess db caller projectId = true)
    (hproj : (findProject db projectId).isSome = true)
    (htask : taskExistsIn db taskId projectId = true)
    (hcids : cinput.assigneeIds = some ids)
    (huids : uinput.assigneeIds = some ids) :
    createTask db caller projectId freshTaskId now cinput =
      (Res.err "INVALID_ASSIGNEES" 400, db) ∧
    updateTask db caller projectId taskId uinput =
      (Res.err "INVALID_ASSIGNEES" 400, db) := by
  have hvm : validateProjectMembers db projectId ids = false := by
    cases hv : validateProjectMembers db projectId ids
    · rfl
    · rw [validateProjectMembers, List.all_eq_true] at hv
      have hb := hv bad hbad
      rw [hnotOwner, hnotMember] at hb
      simp at hb
  have hidsne : ids.isEmpty = false := by
    cases ids
    · cases hbad
    · rfl
  constructor
  · simp [createTask, hpid, hcval, haccess, hcids, hvm, hidsne,
      canCreateTasks, Option.isNone_iff_eq_none,
      Option.isSome_iff_ne_none.mp hproj]
  · simp [updateTask, huval, haccess, huids, hvm, hidsne,
      canModifyTasks, htask]

/-- Scenario for the assignee claims: project `p1` owned by `u1` with
contributors `u2` and `u3`; task `t1` currently assigned to `u1` and
`u2`; `u9` is a stranger. -/
def dbC2 : DB :=
  { users := []
    projects := [⟨"p1", "u1", "Alpha", none⟩]
    members := [⟨"u2", "p1", Role.CONTRIBUTOR⟩, ⟨"u3", "p1", Role.CONTRIBUTOR⟩]
    tasks := [⟨"t1", "p1", "Task one", none, "TODO", "MEDIUM", none, "u1", 0⟩]
    assignments := [⟨"t1", "u1"⟩, ⟨"t1", "u2"⟩]
    comments := [] }

def cinputC2 : CreateTaskInput :=
  ⟨"New task", none, none, none, some ["u2", "u9"]⟩

def uinputC2 : UpdateTaskInput :=
  ⟨none, none, none, none, none, some ["u2", "u9"]⟩

/-- Witness for C2: the proposed set {u2 (member), u9 (stranger)} is
rejected outright on both paths and the state is untouched. -/
theorem task_invalid_assignees_rejected_witness :
    createTask dbC2 "u1" "p1" "t9" 5 cinputC2 =
      (Res.err "INVALID_ASSIGNEES" 400, dbC2) ∧
    updateTask dbC2 "u1" "p1" "t1" uinputC2 =
      (Res.err "INVALID_ASSIGNEES" 400, dbC2) :=
  task_invalid_assignees_rejected dbC2 "u1" "p1" "t9" "t1" 5 cinputC2 uinputC2
    ["u2", "u9"] "u9" (by decide) (by decide) (by decide) (by decide)
    (by decide) (by decide) (by decide) (by decide) (by decide) rfl rfl

theorem mem_updateTaskAssignments_self (db : DB) (taskId : TaskId)
    (ids : List UserId) (u : UserId) :
    Assignment.mk taskId u ∈ (updateTaskAssignments db taskId ids).assignments ↔
      u ∈ ids := by
  simp only [updateTaskAssignments, List.mem_append, List.mem_filter,
    List.mem_map, List.contains_eq_any_beq, List.any_eq_true]
  constructor
  · rintro (⟨-, hkeep⟩ | ⟨v, ⟨hv, -⟩, heq⟩)
    · simp only [beq_self_eq_true, Bool.not_true, Bool.false_or,
        List.any_eq_true, beq_iff_eq] at hkeep
      obtain ⟨w, hw, rfl⟩ := hkeep
      exact hw
    · cases heq
      exact hv
  · intro hu
    by_cases hexists :
        db.assignments.any (fun a => a.taskId == taskId && a.userId == u) = true
    · left
      rw [List.any_eq_true] at hexists
      obtain ⟨a, ha, hpred⟩ := hexists
      simp only [Bool.and_eq_true, beq_iff_eq] at hpred
      obtain ⟨hat, hau⟩ := hpred
      have : a = Assignment.mk taskId u := by
        cases a
        simp_all
      subst this
      refine ⟨ha, ?_⟩
      simp only [beq_self_eq_true, Bool.not_true, Bool.false_or,
        List.any_eq_true, beq_iff_eq]
      exact ⟨u, hu, rfl⟩
    · right
      refine ⟨u, ⟨hu, ?_⟩, rfl⟩
      simp only [Bool.not_eq_true] at hexists
      simp [hexists]

theorem mem_updateTaskAssignments_other (db : DB) (taskId : TaskId)
    (ids : List UserId) (a : Assignment) (hne : a.taskId ≠ taskId) :
    (a ∈ (updateTaskAssignments db taskId ids).assignments ↔
      a ∈ db.assignments) := by
  simp only [updateTaskAssignments, List.mem_append, List.mem_filter,
    List.mem_map]
  constructor
  · rintro (⟨ha, -⟩ | ⟨v, -, heq⟩)
    · exact ha
    · exact absurd (congrArg Assignment.taskId heq.symm) hne
  · intro ha
    left
    refine ⟨ha, ?_⟩
    have : (a.taskId == taskId) = false := by
      simpa using hne
    simp [this]

/-- C3: whenever `updateTask` succeeds on a request that declares an
assignee set, the persisted assignee set of that task is exactly the
declared set — rows no longer declared are gone, newly declared rows are
present — and assignment rows of other tasks are untouched.  The
reconciliation is a single pure state transition, so no intermediate
set is ever observable. -/
theorem updateTask_assignee_set (db db2 : DB) (caller : UserId)
    (projectId : ProjectId) (taskId : TaskId) (input : UpdateTaskInput)
    (ids : List UserId)
    (hids : input.assigneeIds = some ids)
    (hres : updateTask db caller projectId taskId input = (Res.ok, db2)) :
    (∀ u, Assignment.mk taskId u ∈ db2.assignments ↔ u ∈ ids) ∧
    (∀ a : Assignment, a.taskId ≠ taskId →
      (a ∈ db2.assignments ↔ a ∈ db.assignments)) := by
  simp only [updateTask, hids, Option.getD_some] at hres
  split_ifs at hres with h1 h2 h3 h4 h5 <;> simp at hres
  rw [← hres]
  constructor
  · intro u
    exact mem_updateTaskAssignments_self _ taskId ids u
  · intro a hne
    exact mem_updateTaskAssignments_other _ taskId ids a hne

def uinputC3 : UpdateTaskInput :=
  ⟨none, none, none, none, none, some ["u2", "u3"]⟩

/-- Witness for C3: existing assignees {u1, u2} of task `t1`, declared
set {u2, u3} — the resulting set is exactly {u2, u3}. -/
theorem updateTask_assignee_set_witness :
    (∀ u, Assignment.mk "t1" u ∈
        (updateTask dbC2 "u1" "p1" "t1" uinputC3).2.assignments ↔
      u ∈ ["u2", "u3"]) ∧
    (∀ a : Assignment, a.taskId ≠ "t1" →
      (a ∈ (updateTask dbC2 "u1" "p1" "t1" uinputC3).2.assignments ↔
        a ∈ dbC2.assignments)) :=
  updateTask_assignee_set dbC2 (updateTask dbC2 "u1" "p1" "t1" uinputC3).2
    "u1" "p1" "t1" uinputC3 ["u2", "u3"] rfl (by decide)

/-- C4: for a user holding a CONTRIBUTOR membership row in a well-formed
state, `canModifyProject` and `canDeleteProject` are false while
`hasProjectAccess`, `canCreateTasks` and `canModifyTasks` are true; that
user's `updateProject` attempt is rejected as FORBIDDEN while the
owner's identical attempt succeeds. -/
theorem contributor_permissions (db : DB) (u o : UserId) (p : ProjectId)
    (pr : Project)
    (hWF : WF db)
    (hmem : Member.mk u p Role.CONTRIBUTOR ∈ db.members)
    (hpr : pr ∈ db.projects) (hid : pr.id = p) (howner : pr.ownerId = o) :
    canModifyProject db u p = false ∧
    canDeleteProject db u p = false ∧
    hasProjectAccess db u p = true ∧
    canCreateTasks db u p = true ∧
    canModifyTasks db u p = true ∧
    (updateProject db u p none none).1 = Res.err "FORBIDDEN" 403 ∧
    (updateProject db o p none none).1 = Res.ok := by
  have hfm : findMembership db u p = some (Member.mk u p Role.CONTRIBUTOR) :=
    findMembership_of_mem hWF.membersUnique hmem
  have hfp : findProject db p = some pr :=
    findProject_of_mem hWF.projectsUnique hpr hid
  have hownerNe : pr.ownerId ≠ u :=
    hWF.ownerNotMember _ hmem pr hpr hid
  have hio : isProjectOwner db u p = false := by
    rw [isProjectOwner, hfp]
    simpa using hownerNe
  have hia : isProjectAdmin db u p = false := by
    rw [isProjectAdmin, hfm]
    rfl
  have hioo : isProjectOwner db o p = true := by
    rw [isProjectOwner, hfp]
    simp [howner]
  have hcm : canModifyProject db u p = false := by
    rw [canModifyProject, hio, hia]
    rfl
  have hacc : hasProjectAccess db u p = true := by
    rw [hasProjectAccess, hfm]
    simp
  refine ⟨hcm, hio, hacc, hacc, hacc, ?_, ?_⟩
  · simp [updateProject, validateUpdateProjectData, hcm]
  · simp [updateProject, validateUpdateProjectData, canModifyProject, hioo, hfp]

/-- Witness for C4: owner `u1`, contributor `u2` on project `p1`. -/
theorem contributor_permissions_witness :
    canModifyProject dbC2 "u2" "p1" = false ∧
    canDeleteProject dbC2 "u2" "p1" = false ∧
    hasProjectAccess dbC2 "u2" "p1" = true ∧
    canCreateTasks dbC2 "u2" "p1" = true ∧
    canModifyTasks dbC2 "u2" "p1" = true ∧
    (updateProject dbC2 "u2" "p1" none none).1 = Res.err "FORBIDDEN" 403 ∧
    (updateProject dbC2 "u1" "p1" none none).1 = Res.ok :=
  contributor_permissions dbC2 "u2" "u1" "p1" ⟨"p1", "u1", "Alpha", none⟩
    ⟨by decide, by decide, by decide, by decide⟩
    (by decide) (by decide) (by decide) (by decide)

/-- C5: every permission predicate is total on denial in a well-formed
state — on a non-existent project all predicates return false and
`getUserProjectRole` returns none, and the same holds for a user with no
relation (not the owner, no membership row) to the project.  All
predicates are total Lean functions: denial is a return value, never an
exception. -/
theorem permission_denial_total (db : DB) (u : UserId) (p : ProjectId)
    (hWF : WF db) :
    (findProject db p = none →
      isProjectOwner db u p = false ∧
      isProjectAdmin db u p = false ∧
      hasProjectAccess db u p = false ∧
      canModifyProject db u p = false ∧
      canDeleteProject db u p = false ∧
      canCreateTasks db u p = false ∧
      canModifyTasks db u p = false ∧
      getUserProjectRole db u p = none) ∧
    ((∀ pr ∈ db.projects, pr.id = p → pr.ownerId ≠ u) →
      (∀ m ∈ db.members, ¬(m.userId = u ∧ m.projectId = p)) →
      isProjectOwner db u p = false ∧
      isProjectAdmin db u p = false ∧
      hasProjectAccess db u p = false ∧
      canModifyProject db u p = false ∧
      canDeleteProject db u p = false ∧
      canCreateTasks db u p = false ∧
      canModifyTasks db u p = false ∧
      getUserProjectRole db u p = none) := by
  constructor
  · intro hnone
    have hnoproj : ∀ pr ∈ db.projects, pr.id ≠ p := by
      intro pr hpr
      rw [findProject, List.find?_eq_none] at hnone
      simpa using hnone pr hpr
    have hfm : findMembership db u p = none := by
      apply findMembership_eq_none
      rintro m hm ⟨-, hmp⟩
      obtain ⟨pr, hpr, hprid⟩ := hWF.memberProjectExists m hm
      exact hnoproj pr hpr (hprid.trans hmp)
    have hio : isProjectOwner db u p = false := by
      rw [isProjectOwner, hnone]
    have hia : isProjectAdmin db u p = false := by
      rw [isProjectAdmin, hfm]
    have hacc : hasProjectAccess db u p = false := by
      rw [hasProjectAccess, hio, hfm]
      rfl
    refine ⟨hio, hia, hacc, ?_, hio, hacc, hacc, ?_⟩
    · rw [canModifyProject, hio, hia]
      rfl
    · rw [getUserProjectRole, hio, hfm]
      rfl
  · intro hown hmem
    have hfm : findMembership db u p = none := findMembership_eq_none hmem
    have hio : isProjectOwner db u p = false := by
      rw [isProjectOwner]
      cases hfp : findProject db p with
      | none => rfl
      | some pr =>
          obtain ⟨hpr, hprid⟩ := findProject_eq_some hfp
          simpa using hown pr hpr hprid
    have hia : isProjectAdmin db u p = false := by
      rw [isProjectAdmin, hfm]
    have hacc : hasProjectAccess db u p = false := by
      rw [hasProjectAccess, hio, hfm]
      rfl
    refine ⟨hio, hia, hacc, ?_, hio, hacc, hacc, ?_⟩
    · rw [canModifyProject, hio, hia]
      rfl
    · rw [getUserProjectRole, hio, hfm]
      rfl

/-- Witness for C5: the project id `nope` does not exist in `dbC2` and
the user `ghost` has no relation to project `p1`. -/
theorem permission_denial_total_witness :
    (isProjectOwner dbC2 "ghost" "nope" = false ∧
      isProjectAdmin dbC2 "ghost" "nope" = false ∧
      hasProjectAccess dbC2 "ghost" "nope" = false ∧
      canModifyProject dbC2 "ghost" "nope" = false ∧
      canDeleteProject dbC2 "ghost" "nope" = false ∧
      canCreateTasks dbC2 "ghost" "nope" = false ∧
      canModifyTasks dbC2 "ghost" "nope" = false ∧
      getUserProjectRole dbC2 "ghost" "nope" = none) ∧
    (isProjectOwner dbC2 "ghost" "p1" = false ∧
      isProjectAdmin dbC2 "ghost" "p1" = false ∧
      hasProjectAccess dbC2 "ghost" "p1" = false ∧
      canModifyProject dbC2 "ghost" "p1" = false ∧
      canDeleteProject dbC2 "ghost" "p1" = false ∧
      canCreateTasks dbC2 "ghost" "p1" = false ∧
      canModifyTasks dbC2 "ghost" "p1" = false ∧
      getUserProjectRole dbC2 "ghost" "p1" = none) :=
  ⟨(permission_denial_total dbC2 "ghost" "nope"
      ⟨by decide, by decide, by decide, by decide⟩).1 (by decide),
    (permission_denial_total dbC2 "ghost" "p1"
      ⟨by decide, by decide, by decide, by decide⟩).2 (by decide) (by decide)⟩

/-- Scenario for claim C6: project `p1` owned by `u1` with contributor
`u2`; `u1` and `u2` are registered users. -/
def dbC6 : DB :=
  { users := [⟨"u1", "alice@example.com"⟩, ⟨"u2", "bob@example.com"⟩]
    projects := [⟨"p1", "u1", "Alpha", none⟩]
    members := [⟨"u2", "p1", Role.CONTRIBUTOR⟩]
    tasks := []
    assignments := []
    comments := [] }

/-- C6 (counterexample): the owner (`u1`, an authorized caller) removing
their own id — a target with NO membership row — is rejected with
CANNOT_REMOVE_OWNER instead of completing as a no-op success, refuting
the universally quantified claim. -/
theorem remove_nonmember_not_noop_counterexample :
    canModifyProject dbC6 "u1" "p1" = true ∧
    findMembership dbC6 "u1" "p1" = none ∧
    (removeContributor dbC6 "u1" "p1" "u1").1 =
      Res.err "CANNOT_REMOVE_OWNER" 400 := by
  decide

/-- C6 (amended): for an authorized caller, removing a target with no
membership row is a no-op success except in the one carved-out case
where the caller is the owner targeting themself (CANNOT_REMOVE_OWNER);
adding a contributor whose resolved user already has a membership row is
rejected as USER_ALREADY_MEMBER (409). -/
theorem contributor_add_remove_idempotence (db : DB) (caller target : UserId)
    (p : ProjectId) (email : String) (role : Role) (user : User)
    (hcm : canModifyProject db caller p = true) :
    (¬(isProjectOwner db caller p = true ∧ caller = target) →
      findMembership db target p = none →
      removeContributor db caller p target = (Res.ok, db)) ∧
    (findUserByEmail db email = some user →
      (findMembership db user.id p).isSome = true →
      addContributor db caller p email role =
        (Res.err "USER_ALREADY_MEMBER" 409, db)) := by
  constructor
  · intro hguard hnone
    have hfilter : db.members.filter
        (fun m => !(m.userId == target && m.projectId == p)) = db.members := by
      rw [List.filter_eq_self]
      intro m hm
      rw [findMembership, List.find?_eq_none] at hnone
      have h := hnone m hm
      simp only [Bool.and_eq_true, beq_iff_eq, not_and] at h
      by_cases h1 : m.userId = target
      · simp [h1, h h1]
      · simp [h1]
    have hguardb : (isProjectOwner db caller p && (caller == target)) = false := by
      cases hb : isProjectOwner db caller p with
      | false => rfl
      | true =>
          simp only [Bool.true_and, beq_eq_false_iff_ne, ne_eq]
          exact fun h => hguard ⟨hb, h⟩
    rw [removeContributor, hcm, hguardb, hfilter]
    rfl
  · intro hfind hsome
    rw [addContributor, hcm, hfind]
    simp only [hsome]
    rfl

/-- Witness for C6: admin-free scenario — the owner removes the stranger
`u9` (no membership row, no-op success), and re-adds the existing
contributor `u2` by email (conflict 409). -/
theorem contributor_add_remove_idempotence_witness :
    removeContributor dbC6 "u1" "p1" "u9" = (Res.ok, dbC6) ∧
    addContributor dbC6 "u1" "p1" "Bob@Example.com" Role.CONTRIBUTOR =
      (Res.err "USER_ALREADY_MEMBER" 409, dbC6) :=
  ⟨(contributor_add_remove_idempotence dbC6 "u1" "u9" "p1" "Bob@Example.com"
      Role.CONTRIBUTOR ⟨"u2", "bob@example.com"⟩ (by decide)).1
      (by decide) (by decide),
    (contributor_add_remove_idempotence dbC6 "u1" "u9" "p1" "Bob@Example.com"
      Role.CONTRIBUTOR ⟨"u2", "bob@example.com"⟩ (by decide)).2
      (by decide) (by decide)⟩

/-- Scenario for claim C7: project `p1` owned by `u1` with contributor
`u3`; task `t1` carries comment `c1` authored by `u2`, who is no longer
related to the project. -/
def dbC7 : DB :=
  { users := []
    projects := [⟨"p1", "u1", "Alpha", none⟩]
    members := [⟨"u3", "p1", Role.CONTRIBUTOR⟩]
    tasks := [⟨"t1", "p1", "Task one", none, "TODO", "MEDIUM", none, "u1", 0⟩]
    assignments := []
    comments := [⟨"c1", "t1", "u2", "hello", 1⟩] }

/-- C7 (counterexample): `u2` is the author of the existing comment `c1`,
yet their `deleteComment` call fails with FORBIDDEN because the access
check (`hasProjectAccess`) runs first and `u2` is no longer related to
the project — refuting "succeeds exactly when the caller is the author
or canModifyTasks holds". -/
theorem comment_delete_author_counterexample :
    (findCommentIn dbC7 "c1" "t1" "p1").map Comment.authorId = some "u2" ∧
    (deleteComment dbC7 "u2" "p1" "t1" "c1").1 = Res.err "FORBIDDEN" 403 := by
  decide

/-- C7 (amended): for an existing comment, `updateComment` succeeds only
when the caller is the author; and among callers that pass the project
access check, `deleteComment` succeeds exactly when the caller is the
author or `canModifyTasks` holds. -/
theorem comment_mutation_rules (db : DB) (caller : UserId) (p : ProjectId)
    (t : TaskId) (cid : CommentId) (content : String) (c : Comment)
    (hc : findCommentIn db cid t p = some c) :
    ((updateComment db caller p t cid content).1 = Res.ok →
      c.authorId = caller) ∧
    (hasProjectAccess db caller p = true →
      ((deleteComment db caller p t cid).1 = Res.ok ↔
        (c.authorId = caller ∨ canModifyTasks db caller p = true))) := by
  constructor
  · intro hok
    rw [updateComment] at hok
    simp only [hc] at hok
    by_cases h1 : (!(validateCommentData content).isEmpty) = true
    · rw [if_pos h1] at hok
      simp at hok
    · rw [if_neg h1] at hok
      by_cases h2 : (!hasProjectAccess db caller p) = true
      · rw [if_pos h2] at hok
        simp at hok
      · rw [if_neg h2] at hok
        by_cases h3 : (c.authorId != caller) = true
        · rw [if_pos h3] at hok
          simp at hok
        · simpa using h3
  · intro hacc
    rw [deleteComment, if_neg (by simp [hacc])]
    simp only [hc]
    by_cases hcond : (c.authorId != caller && !canModifyTasks db caller p) = true
    · rw [if_pos hcond]
      simp only [Bool.and_eq_true, bne_iff_ne, ne_eq, Bool.not_eq_true'] at hcond
      simp [hcond.1, hcond.2]
    · rw [if_neg hcond]
      simp only [Bool.and_eq_true, bne_iff_ne, ne_eq, Bool.not_eq_true',
        not_and] at hcond
      constructor
      · intro _
        by_cases ha : c.authorId = caller
        · exact Or.inl ha
        · exact Or.inr (by simpa using hcond ha)
      · intro _
        rfl

/-- Witness for C7 (amended): contributor `u3` on the comment `c1`
authored by `u2`. -/
theorem comment_mutation_rules_witness :
    ((updateComment dbC7 "u3" "p1" "t1" "c1" "edit").1 = Res.ok →
      (Comment.mk "c1" "t1" "u2" "hello" 1).authorId = "u3") ∧
    (hasProjectAccess dbC7 "u3" "p1" = true →
      ((deleteComment dbC7 "u3" "p1" "t1" "c1").1 = Res.ok ↔
        ((Comment.mk "c1" "t1" "u2" "hello" 1).authorId = "u3" ∨
          canModifyTasks dbC7 "u3" "p1" = true))) :=
  comment_mutation_rules dbC7 "u3" "p1" "t1" "c1" "edit"
    (Comment.mk "c1" "t1" "u2" "hello" 1) (by decide)

/-- Scenario for claim C8: project `p1` owned by `u1`; task `t1` carries
comments `c1` (createdAt 1) and `c2` (createdAt 2). -/
def dbC8 : DB :=
  { users := []
    projects := [⟨"p1", "u1", "Alpha", none⟩]
    members := []
    tasks := [⟨"t1", "p1", "Task one", none, "TODO", "MEDIUM", none, "u1", 0⟩]
    assignments := []
    comments := [⟨"c1", "t1", "u1", "first", 1⟩, ⟨"c2", "t1", "u1", "second", 2⟩] }

/-- C8 (counterexample): `getProject` succeeds but embeds the task's
comments in descending creation order ([c2, c1]), so the claim that
every comment-returning operation orders ascending fails on the
project-retrieval path. -/
theorem getProject_comment_order_counterexample :
    (getProject dbC8 "u1" "p1").1 = Res.ok ∧
    ¬(∀ tc ∈ (getProject dbC8 "u1" "p1").2, List.Sorted commentLe tc.2) := by
  decide

/-- C8 (amended): the comment listing (`getComments`), the single-task
retrieval (`getTask`, via `getTaskComments`) return comments ordered by
creation time ascending, while `getProject` embeds each task's comments
ordered by creation time descending. -/
theorem comment_listing_order (db : DB) (caller : UserId) (p : ProjectId)
    (t : TaskId) :
    List.Sorted commentLe (getComments db caller p t).2 ∧
    List.Sorted commentLe (getTask db caller p t).2 ∧
    List.Sorted commentLe (getTaskComments db t) ∧
    (∀ tc ∈ (getProject db caller p).2, List.Sorted commentGe tc.2) := by
  refine ⟨?_, ?_, ?_, ?_⟩
  · rw [getComments]
    split_ifs
    · exact List.sorted_nil
    · exact List.sorted_nil
    · exact List.sorted_insertionSort commentLe _
  · rw [getTask]
    split_ifs
    · exact List.sorted_nil
    · exact List.sorted_nil
    · exact List.sorted_insertionSort commentLe _
  · exact List.sorted_insertionSort commentLe _
  · rw [getProject]
    split_ifs
    · intro tc htc
      cases htc
    · cases hfp : findProject db p with
      | none =>
          simp only [hfp]
          intro tc htc
          cases htc
      | some pr =>
          simp only [hfp]
          intro tc htc
          rw [List.mem_map] at htc
          obtain ⟨task, -, rfl⟩ := htc
          exact List.sorted_insertionSort commentGe _

/-- Witness for C8 (amended) at the concrete scenario state. -/
theorem comment_listing_order_witness :
    List.Sorted commentLe (getComments dbC8 "u1" "p1" "t1").2 ∧
    List.Sorted commentLe (getTask dbC8 "u1" "p1" "t1").2 ∧
    List.Sorted commentLe (getTaskComments dbC8 "t1") ∧
    (∀ tc ∈ (getProject dbC8 "u1" "p1").2, List.Sorted commentGe tc.2) :=
  comment_listing_order dbC8 "u1" "p1" "t1"

/-- C9: `validateRegisterData` is exhaustive over all fields rather than
fail-fast: its result carries exactly one entry per violated rule — an
`email` entry iff the email is missing or malformed, a `password` entry
iff the password is missing or too weak, and a `name` entry iff a
non-empty name trims below 2 characters — and its length is the number
of violated rules, so an input violating several rules reports them all
at once. -/
theorem validateRegisterData_exhaustive (email password : String)
    (name : Option String) :
    (validateRegisterData email password name).length =
      ((if email == "" || !isValidEmail email then 1 else 0) +
        (if password == "" || !isValidPassword password then 1 else 0) +
        (if (match name with
             | some n => n != "" && decide (jsLen (jsTrim n) < 2)
             | none => false) = true then 1 else 0)) ∧
    ((validateRegisterData email password name).any
        (fun e => e.field == "email") =
      (email == "" || !isValidEmail email)) ∧
    ((validateRegisterData email password name).any
        (fun e => e.field == "password") =
      (password == "" || !isValidPassword password)) ∧
    ((validateRegisterData email password name).any
        (fun e => e.field == "name") =
      (match name with
       | some n => n != "" && decide (jsLen (jsTrim n) < 2)
       | none => false)) := by
  cases name with
  | none =>
      simp only [validateRegisterData]
      split_ifs <;> simp_all [List.any_append]
  | some n =>
      simp only [validateRegisterData]
      split_ifs <;> simp_all [List.any_append]

theorem mem_addInitialContributors (us : List User) (pid : ProjectId)
    (db : DB) (uid : UserId) (r : Role)
    (hinv : ∀ x rr, Member.mk x pid rr ∈ db.members → rr = Role.CONTRIBUTOR) :
    (Member.mk uid pid r ∈ (addInitialContributors us pid db).members ↔
      (Member.mk uid pid r ∈ db.members ∨
        (r = Role.CONTRIBUTOR ∧ uid ∈ us.map User.id))) := by
  induction us generalizing db with
  | nil => simp [addInitialContributors]
  | cons u us ih =>
      by_cases hmem : (findMembership db u.id pid).isSome = true
      · obtain ⟨m, hm⟩ := Option.isSome_iff_exists.mp hmem
        obtain ⟨hmmem, hmu, hmp⟩ := findMembership_eq_some hm
        have hrole : m.role = Role.CONTRIBUTOR := by
          apply hinv m.userId m.role
          have : m = Member.mk m.userId pid m.role := by
            cases m
            simp_all
          rw [← this]
          exact hmmem
        have hmemC : Member.mk u.id pid Role.CONTRIBUTOR ∈ db.members := by
          have : m = Member.mk u.id pid Role.CONTRIBUTOR := by
            cases m
            simp_all
          rw [← this]
          exact hmmem
        have hstep : addInitialContributors (u :: us) pid db =
            addInitialContributors us pid db := by
          rw [addInitialContributors, addInitialContributors, List.foldl_cons,
            if_pos hmem]
        rw [hstep, ih db hinv]
        simp only [List.map_cons, List.mem_cons]
        constructor
        · rintro (h | ⟨hr, hin⟩)
          · exact Or.inl h
          · exact Or.inr ⟨hr, Or.inr hin⟩
        · rintro (h | ⟨hr, (heq | hin)⟩)
          · exact Or.inl h
          · subst hr
            subst heq
            exact Or.inl hmemC
          · exact Or.inr ⟨hr, hin⟩
      · have hstep : addInitialContributors (u :: us) pid db =
            addInitialContributors us pid
              { db with members := db.members ++ [⟨u.id, pid, Role.CONTRIBUTOR⟩] } := by
          rw [addInitialContributors, addInitialContributors, List.foldl_cons,
            if_neg hmem]
        have hinv2 : ∀ x rr, Member.mk x pid rr ∈
            (db.members ++ [Member.mk u.id pid Role.CONTRIBUTOR]) →
            rr = Role.CONTRIBUTOR := by
          intro x rr h
          rw [List.mem_append, List.mem_cons] at h
          simp only [List.not_mem_nil, or_false] at h
          rcases h with h | h
          · exact hinv x rr h
          · exact congrArg Member.role h
        rw [hstep, ih _ hinv2]
        simp only [List.mem_append, List.mem_cons, List.not_mem_nil, or_false,
          List.map_cons]
        constructor
        · rintro ((h | h) | ⟨hr, hin⟩)
          · exact Or.inl h
          · exact Or.inr ⟨congrArg Member.role h, Or.inl (congrArg Member.userId h)⟩
          · exact Or.inr ⟨hr, Or.inr hin⟩
        · rintro (h | ⟨hr, (heq | hin)⟩)
          · exact Or.inl (Or.inl h)
          · subst hr
            subst heq
            exact Or.inl (Or.inr rfl)
          · exact Or.inr ⟨hr, hin⟩

theorem mem_addInitialContributors_ne (us : List User) (pid : ProjectId)
    (db : DB) (m : Member) (hne : m.projectId ≠ pid) :
    (m ∈ (addInitialContributors us pid db).members ↔ m ∈ db.members) := by
  induction us generalizing db with
  | nil => exact Iff.rfl
  | cons u us ih =>
      by_cases hmem : (findMembership db u.id pid).isSome = true
      · rw [addInitialContributors, List.foldl_cons, if_pos hmem]
        exact ih db
      · rw [addInitialContributors, List.foldl_cons, if_neg hmem]
        have := ih { db with members := db.members ++ [⟨u.id, pid, Role.CONTRIBUTOR⟩] }
        rw [addInitialContributors] at this
        rw [this]
        simp only [List.mem_append, List.mem_cons, List.not_mem_nil, or_false]
        constructor
        · rintro (h | h)
          · exact h
          · exact absurd (congrArg Member.projectId h) hne
        · exact Or.inl

/-- C10: `createProject` with an initial contributor email list always
succeeds regardless of how the list resolves — emails matching no user
are silently skipped and duplicate insertions are swallowed — and the
new project's member set is exactly one CONTRIBUTOR row per existing
user whose email appears (lowercased) in the list; membership rows of
other projects are untouched. -/
theorem createProject_contributors (db : DB) (caller : UserId)
    (fresh : ProjectId) (name : String) (desc : Option String)
    (cs : List String)
    (hval : validateCreateProjectData name desc (some cs) = [])
    (hfresh : ∀ m ∈ db.members, m.projectId ≠ fresh) :
    (createProject db caller fresh name desc (some cs)).1 = Res.ok ∧
    (∀ uid r,
      Member.mk uid fresh r ∈
          (createProject db caller fresh name desc (some cs)).2.members ↔
        (r = Role.CONTRIBUTOR ∧
          ∃ u ∈ db.users, u.id = uid ∧ u.email ∈ cs.map jsToLower)) ∧
    (∀ m : Member, m.projectId ≠ fresh →
      (m ∈ (createProject db caller fresh name desc (some cs)).2.members ↔
        m ∈ db.members)) := by
  have hval2 : (validateCreateProjectData name desc (some cs)).isEmpty = true := by
    rw [hval]
    rfl
  by_cases hcs : cs.isEmpty = true
  · have hcsnil : cs = [] := by
      cases cs
      · rfl
      · simp [List.isEmpty] at hcs
    subst hcsnil
    refine ⟨by simp [createProject, hval2], ?_, ?_⟩
    · intro uid r
      constructor
      · intro h
        have hmem : Member.mk uid fresh r ∈ db.members := by
          simpa [createProject, hval2] using h
        exact absurd rfl (hfresh _ hmem)
      · rintro ⟨-, u, -, -, hemail⟩
        simp at hemail
    · intro m hm
      simp only [createProject, hval2, Bool.not_true, Bool.false_eq_true,
        if_false, List.isEmpty_nil, if_true]
  · have hcs2 : cs.isEmpty = false := by
      cases h : cs.isEmpty
      · rfl
      · exact absurd h hcs
    have hinv : ∀ x rr, Member.mk x fresh rr ∈ db.members →
        rr = Role.CONTRIBUTOR := by
      intro x rr h
      exact absurd rfl (hfresh _ h)
    refine ⟨by simp [createProject, hval2, hcs2], ?_, ?_⟩
    · intro uid r
      simp only [createProject, hval2, Bool.not_true, Bool.false_eq_true,
        if_false, hcs2, Bool.not_false, if_true]
      refine Iff.trans (mem_addInitialContributors _ fresh _ uid r ?_) ?_
      · intro x rr h
        exact absurd rfl (hfresh _ h)
      constructor
      · rintro (h | ⟨hr, hin⟩)
        · exact absurd rfl (hfresh _ h)
        · refine ⟨hr, ?_⟩
          rw [List.mem_map] at hin
          obtain ⟨u, hu, huid⟩ := hin
          rw [List.mem_filter] at hu
          refine ⟨u, hu.1, huid, ?_⟩
          simpa [List.contains_eq_any_beq, List.any_eq_true] using hu.2
      · rintro ⟨hr, u, hu, huid, hemail⟩
        right
        refine ⟨hr, ?_⟩
        rw [List.mem_map]
        refine ⟨u, List.mem_filter.mpr ⟨hu, ?_⟩, huid⟩
        simpa [List.contains_eq_any_beq, List.any_eq_true] using hemail
    · intro m hm
      simp only [createProject, hval2, Bool.not_true, Bool.false_eq_true,
        if_false, hcs2, Bool.not_false, if_true]
      exact mem_addInitialContributors_ne _ fresh _ m hm

/-- Witness for C10: contributors list [D@E.F (matches u2), x@y.z
(matches nobody)] — creation succeeds and exactly u2 is a CONTRIBUTOR
of the new project. -/
theorem createProject_contributors_witness :
    (createProject dbC6 "u1" "p2" "Beta" none
        (some ["Bob@Example.com", "x@y.z"])).1 = Res.ok ∧
    (∀ uid r,
      Member.mk uid "p2" r ∈
          (createProject dbC6 "u1" "p2" "Beta" none
            (some ["Bob@Example.com", "x@y.z"])).2.members ↔
        (r = Role.CONTRIBUTOR ∧
          ∃ u ∈ dbC6.users, u.id = uid ∧
            u.email ∈ ["Bob@Example.com", "x@y.z"].map jsToLower)) ∧
    (∀ m : Member, m.projectId ≠ "p2" →
      (m ∈ (createProject dbC6 "u1" "p2" "Beta" none
          (some ["Bob@Example.com", "x@y.z"])).2.members ↔
        m ∈ dbC6.members)) :=
  createProject_contributors dbC6 "u1" "p2" "Beta" none
    ["Bob@Example.com", "x@y.z"] (by decide) (by decide)

end Abricot
